import Mathlib

/-!
Verification development for the slug allocator of `src/models/thing-slug.js`
(`ThingSlug.qualifiedSave`), shallowly embedded in Lean 4.

The store is modelled as a list of slug records with an insert-if-absent
primitive keyed by `name` (RethinkDB/thinky primary-key semantics) and a
`filter … orderBy(desc createdOn) … limit(1)` query.  JavaScript's `Number()`
coercion on qualifier strings is modelled by `jsNumber` on plain decimal
literals (optional sign, digits, optional fractional part; the empty string
coerces to 0 and `undefined` to NaN, exactly as in JS), and `String()` on the
resulting number by `jsNumToString`.  Numbers are carried as exact
terminating decimals `mant / 10 ^ scale` (`JsDec`): every value `Number()`
produces from a short decimal literal, and every value the allocator computes
from one, is such a decimal, rendered by JS in the same shortest-decimal
form, so this carrier is faithful on the domain the allocator touches.

`qualifiedSave` is the deterministic (quiescent-store, fault-free) embedding
of the source; `qualifiedSaveC` generalizes it with a `Schedule` that injects
concurrent inserts by other writers between the store round-trips and
infrastructure failures at each store call, and records which store
operations were performed.
-/

namespace ThingSlug

/-- One row of the `thing_slugs` table (schema of `src/models/thing-slug.js`).
`qualifierPart` is `none` when the field is absent (`undefined` in JS).
`createdOn` is an abstract timestamp. -/
structure Slug where
  name : String
  baseName : String
  qualifierPart : Option String
  thingID : String
  createdOn : Nat
  createdBy : String
deriving DecidableEq, Repr

/-- An exact terminating decimal `mant / 10 ^ scale`: the model of the
JavaScript numbers the allocator computes.  Parsing keeps `scale` minimal
(no trailing fractional zeros), matching JS shortest-form printing. -/
structure JsDec where
  mant : Int
  scale : Nat
deriving DecidableEq, Repr

/-- The rational value of a `JsDec`. -/
def JsDec.val (d : JsDec) : ℚ :=
  (d.mant : ℚ) / (10 : ℚ) ^ d.scale

/-- `d + 1` in exact decimal arithmetic (JS `+ 1` on these values). -/
def JsDec.addOne (d : JsDec) : JsDec :=
  ⟨d.mant + 10 ^ d.scale, d.scale⟩

/-- Negation (for a leading `-` sign). -/
def JsDec.neg (d : JsDec) : JsDec :=
  ⟨-d.mant, d.scale⟩

/-- Decimal digit test, as for JS numeric literals. -/
def isDigit (c : Char) : Bool :=
  '0' ≤ c && c ≤ '9'

/-- Value of a list of decimal digit characters (most significant first). -/
def digitsToNat (l : List Char) : Nat :=
  l.foldl (fun acc c => acc * 10 + (c.toNat - 48)) 0

/-- Drop trailing `'0'` characters (canonicalizing a fractional part). -/
def trimZeros (l : List Char) : List Char :=
  (l.reverse.dropWhile (fun c => c = '0')).reverse

/-- Unsigned part of JS `Number()` on a decimal literal: `digits`,
`digits.digits`, `digits.` or `.digits`; anything else is NaN (`none`). -/
def parseDecimal (cs : List Char) : Option JsDec :=
  let intPart := cs.takeWhile isDigit
  let rest := cs.dropWhile isDigit
  match rest with
  | [] => if intPart.isEmpty then none else some ⟨(digitsToNat intPart : ℤ), 0⟩
  | '.' :: fracRaw =>
    if fracRaw.all isDigit && (!intPart.isEmpty || !fracRaw.isEmpty) then
      let frac := trimZeros fracRaw
      some ⟨(digitsToNat intPart * 10 ^ frac.length + digitsToNat frac : ℤ), frac.length⟩
    else none
  | _ => none

/-- Model of JavaScript `Number(s)` for string `s`, restricted to plain
decimal literals with an optional leading sign; `none` is NaN.
`Number("") = 0`, `Number("2.5") = 2.5`, `Number("-3") = -3`,
`Number("x") = NaN`. -/
def jsNumber (s : String) : Option JsDec :=
  match s.data with
  | [] => some ⟨0, 0⟩
  | c :: rest =>
    if c = '-' then (parseDecimal rest).map JsDec.neg
    else if c = '+' then parseDecimal rest
    else parseDecimal (c :: rest)

/-- Decimal digit characters of `n`, most significant first; fuel-based so
that the kernel can evaluate it (`fuel > n` suffices). -/
def natToDigitsAux : Nat → Nat → List Char
  | 0, _ => []
  | fuel + 1, n =>
    if n < 10 then [Nat.digitChar n]
    else natToDigitsAux fuel (n / 10) ++ [Nat.digitChar (n % 10)]

/-- Decimal digit characters of a natural number, most significant first. -/
def natToDigits (n : Nat) : List Char :=
  natToDigitsAux (n + 1) n

/-- Decimal rendering of a natural number. -/
def natToDigitString (n : Nat) : String :=
  String.mk (natToDigits n)

/-- Left-pad the decimal rendering of `m` with zeros to `k` digits
(the fractional block of a decimal expansion). -/
def padDigits (k : Nat) (m : Nat) : String :=
  String.mk (List.replicate (k - (natToDigits m).length) '0' ++ natToDigits m)

/-- Model of JavaScript `String(q)` for a terminating-decimal number:
optional sign, integer part, and the fractional block when `scale ≠ 0`. -/
def jsNumToString (d : JsDec) : String :=
  let a := d.mant.natAbs
  let sign := if d.mant < 0 then "-" else ""
  if d.scale = 0 then sign ++ natToDigitString a
  else sign ++ natToDigitString (a / 10 ^ d.scale) ++ "." ++ padDigits d.scale (a % 10 ^ d.scale)

/-- The slug table: a list of rows, in insertion order. -/
abbrev Store := List Slug

/-- Does a row with primary key `n` exist? -/
def hasName (s : Store) (n : String) : Bool :=
  s.any (fun r => r.name == n)

/-- Primary-key insert: atomic create-if-absent keyed by `name`.
`none` is thinky's `DuplicatePrimaryKeyError`. -/
def insertIfAbsent (s : Store) (r : Slug) : Option Store :=
  if hasName s r.name then none else some (s ++ [r])

/-- Running maximum by `createdOn` (earlier row wins ties). -/
def pickLatest (acc : Option Slug) (r : Slug) : Option Slug :=
  match acc with
  | none => some r
  | some b => if b.createdOn < r.createdOn then some r else some b

/-- `filter(p).orderBy(r.desc('createdOn')).limit(1)`: the matching row with
the greatest `createdOn` (earliest row wins ties). -/
def queryLatest (s : Store) (p : Slug → Bool) : Option Slug :=
  (s.filter p).foldl pickLatest none

/-- Errors a `qualifiedSave` call can reject with: thinky's
`DuplicatePrimaryKeyError` (the spec's ConcurrentAllocationConflict when it
comes from the disambiguation retry) or any other error, carried unchanged
with its `name`. -/
inductive JsError where
  | duplicatePrimaryKey
  | other (errName : String)
deriving DecidableEq, Repr

/-- Outcome of a `qualifiedSave` promise: `resolved` or `rejected`. -/
inductive QSResult where
  | resolved (r : Slug)
  | rejected (e : JsError)
deriving DecidableEq, Repr

/-- The qualifier the retry mints (lines 57–63 of `thing-slug.js`):
`Number(latest.qualifierPart) + 1` when the most recent same-`baseName` row
exists and its `qualifierPart` coerces to a non-NaN number, else `2`. -/
def latestQualifier (q2 : Option Slug) : JsDec :=
  match q2 with
  | some m =>
    match m.qualifierPart with
    | some qs =>
      match jsNumber qs with
      | some v => v.addOne
      | none => ⟨2, 0⟩
    | none => ⟨2, 0⟩
  | none => ⟨2, 0⟩

/-- Deterministic embedding of `ThingSlug.qualifiedSave` (quiescent store,
no infrastructure faults).  Mirrors the source line by line: set
`baseName := name`; save; on `DuplicatePrimaryKeyError` query the latest row
with this `baseName` and `thingID` (resolve it if found), else the latest row
with this `baseName`, mint the next qualifier, and save once more, rejecting
with the raw duplicate-key error if that save also collides.  Returns the
promise outcome and the resulting store. -/
def qualifiedSave (store : Store) (slug0 : Slug) : QSResult × Store :=
  let slug := { slug0 with baseName := slug0.name }
  match insertIfAbsent store slug with
  | some store' => (.resolved slug, store')
  | none =>
    match queryLatest store (fun r => r.baseName == slug.name && r.thingID == slug.thingID) with
    | some r => (.resolved r, store)
    | none =>
      let q := latestQualifier (queryLatest store (fun r => r.baseName == slug.name))
      let slug2 := { slug with
        name := slug.name ++ "-" ++ jsNumToString q
        qualifierPart := some (jsNumToString q) }
      match insertIfAbsent store slug2 with
      | some store' => (.resolved slug2, store')
      | none => (.rejected .duplicatePrimaryKey, store)

/-- The allocator entry point of the spec (§4.1 step 1): build a candidate
with `name = desiredName`, no `qualifierPart`, and `qualifiedSave` it. -/
def allocate (store : Store) (desiredName thingID : String) (createdOn : Nat)
    (createdBy : String) : QSResult × Store :=
  qualifiedSave store
    { name := desiredName, baseName := desiredName, qualifierPart := none,
      thingID := thingID, createdOn := createdOn, createdBy := createdBy }

/-- Deleting a row by primary key (subject deletion, outside the allocator). -/
def deleteName (s : Store) (n : String) : Store :=
  s.filter (fun r => r.name ≠ n)

/-- Apply a batch of concurrent primary-key inserts by other writers; rows
whose `name` already exists are rejected by the store and skipped. -/
def growBy (s : Store) (rs : List Slug) : Store :=
  rs.foldl (fun st r => (insertIfAbsent st r).getD st) s

/-- Tags of the store round-trips a `qualifiedSave` call can perform, in
source order: the first save, the `{baseName, thingID}` query, the
`{baseName}` query, the retry save. -/
inductive StoreOp where
  | insert1
  | query1
  | query2
  | insert2
deriving DecidableEq, Repr

/-- The environment of one `qualifiedSave` call: which rows other writers
insert between its store round-trips, and which of its store calls fail for
infrastructure reasons (the error's `name`, never `DuplicatePrimaryKeyError`). -/
structure Schedule where
  fail1 : Option String
  grow1 : List Slug
  failQ1 : Option String
  grow2 : List Slug
  failQ2 : Option String
  grow3 : List Slug
  fail2 : Option String
deriving Repr

/-- The quiescent, fault-free environment. -/
def Schedule.quiet : Schedule :=
  ⟨none, [], none, [], none, [], none⟩

/-- Concurrent embedding of `ThingSlug.qualifiedSave`: same control flow as
`qualifiedSave`, but between consecutive store round-trips the environment
may insert rows (`grow1`–`grow3`), and every store call may instead fail with
an infrastructure error that the promise chain rejects with unchanged
(`.catch(reject)` / the final `else reject(error)` of the source).  Returns
the promise outcome, the store at resolution/rejection time, and the list of
store operations the call performed. -/
def qualifiedSaveC (sch : Schedule) (store : Store) (slug0 : Slug) :
    QSResult × Store × List StoreOp :=
  let slug := { slug0 with baseName := slug0.name }
  match sch.fail1 with
  | some e => (.rejected (.other e), store, [.insert1])
  | none =>
    match insertIfAbsent store slug with
    | some store' => (.resolved slug, store', [.insert1])
    | none =>
      let s1 := growBy store sch.grow1
      match sch.failQ1 with
      | some e => (.rejected (.other e), s1, [.insert1, .query1])
      | none =>
        match queryLatest s1 (fun r => r.baseName == slug.name && r.thingID == slug.thingID) with
        | some r => (.resolved r, s1, [.insert1, .query1])
        | none =>
          let s2 := growBy s1 sch.grow2
          match sch.failQ2 with
          | some e => (.rejected (.other e), s2, [.insert1, .query1, .query2])
          | none =>
            let q := latestQualifier (queryLatest s2 (fun r => r.baseName == slug.name))
            let slug2 := { slug with
              name := slug.name ++ "-" ++ jsNumToString q
              qualifierPart := some (jsNumToString q) }
            let s3 := growBy s2 sch.grow3
            match sch.fail2 with
            | some e => (.rejected (.other e), s3, [.insert1, .query1, .query2, .insert2])
            | none =>
              match insertIfAbsent s3 slug2 with
              | some store' => (.resolved slug2, store', [.insert1, .query1, .query2, .insert2])
              | none =>
                (.rejected .duplicatePrimaryKey, s3, [.insert1, .query1, .query2, .insert2])

/-- One store evolves into another by a sequence of primary-key inserts
(the only write the allocator's world performs in a deletion-free history). -/
def Evolves (s s' : Store) : Prop :=
  ∃ ext, growBy s ext = s'

/-- Primary-key integrity: equal names identify equal rows. -/
def DistinctNames (s : Store) : Prop :=
  ∀ a ∈ s, ∀ b ∈ s, a.name = b.name → a = b

theorem hasName_iff {s : Store} {n : String} :
    hasName s n = true ↔ ∃ r ∈ s, r.name = n := by
  simp [hasName]

theorem insertIfAbsent_eq_some {s : Store} {r : Slug} {s' : Store}
    (h : insertIfAbsent s r = some s') : s' = s ++ [r] ∧ hasName s r.name = false := by
  unfold insertIfAbsent at h
  split at h
  · exact absurd h (by simp)
  · exact ⟨(Option.some_injective _ h).symm, by simp_all⟩

theorem insertIfAbsent_eq_none {s : Store} {r : Slug}
    (h : insertIfAbsent s r = none) : hasName s r.name = true := by
  unfold insertIfAbsent at h
  split at h
  · assumption
  · exact absurd h (by simp)

theorem insertIfAbsent_none_of_mem {s : Store} {r b : Slug}
    (hb : b ∈ s) (hn : b.name = r.name) : insertIfAbsent s r = none := by
  unfold insertIfAbsent
  have : hasName s r.name = true := hasName_iff.mpr ⟨b, hb, hn⟩
  simp [this]

theorem distinctNames_insertIfAbsent {s : Store} {r : Slug} {s' : Store}
    (hd : DistinctNames s) (h : insertIfAbsent s r = some s') : DistinctNames s' := by
  obtain ⟨rfl, habs⟩ := insertIfAbsent_eq_some h
  intro a ha b hb hab
  rw [List.mem_append, List.mem_singleton] at ha hb
  rcases ha with ha | rfl <;> rcases hb with hb | rfl
  · exact hd a ha b hb hab
  · exact absurd (hasName_iff.mpr ⟨a, ha, hab⟩) (by simp [habs])
  · exact absurd (hasName_iff.mpr ⟨b, hb, hab.symm⟩) (by simp [habs])
  · rfl

theorem growBy_step {s : Store} {r : Slug} {rs : List Slug} :
    growBy s (r :: rs) = growBy ((insertIfAbsent s r).getD s) rs := rfl

theorem mem_growBy {a : Slug} {rs : List Slug} :
    ∀ {s : Store}, a ∈ s → a ∈ growBy s rs := by
  induction rs with
  | nil => intro s h; exact h
  | cons r rs ih =>
    intro s h
    rw [growBy_step]
    apply ih
    cases hins : insertIfAbsent s r with
    | none => simpa using h
    | some s' =>
      obtain ⟨rfl, -⟩ := insertIfAbsent_eq_some hins
      simp [List.mem_append, h]

theorem distinctNames_growBy {rs : List Slug} :
    ∀ {s : Store}, DistinctNames s → DistinctNames (growBy s rs) := by
  induction rs with
  | nil => intro s h; exact h
  | cons r rs ih =>
    intro s h
    rw [growBy_step]
    apply ih
    cases hins : insertIfAbsent s r with
    | none => simpa using h
    | some s' => simpa using distinctNames_insertIfAbsent h hins

theorem growBy_append {s : Store} {l1 l2 : List Slug} :
    growBy s (l1 ++ l2) = growBy (growBy s l1) l2 := by
  simp [growBy, List.foldl_append]

theorem Evolves.rfl {s : Store} : Evolves s s :=
  ⟨[], by simp [growBy]⟩

theorem evolves_growBy {s : Store} (rs : List Slug) : Evolves s (growBy s rs) :=
  ⟨rs, by simp⟩

theorem evolves_insertIfAbsent {s : Store} {r : Slug} {s' : Store}
    (h : insertIfAbsent s r = some s') : Evolves s s' :=
  ⟨[r], by simp [growBy, h]⟩

theorem Evolves.trans {s t u : Store} (h1 : Evolves s t) (h2 : Evolves t u) :
    Evolves s u := by
  obtain ⟨l1, rfl⟩ := h1
  obtain ⟨l2, rfl⟩ := h2
  exact ⟨l1 ++ l2, growBy_append⟩

theorem mem_of_evolves {s s' : Store} {a : Slug} (h : Evolves s s') (ha : a ∈ s) :
    a ∈ s' := by
  obtain ⟨rs, rfl⟩ := h
  exact mem_growBy ha

theorem distinctNames_of_evolves {s s' : Store} (h : Evolves s s')
    (hd : DistinctNames s) : DistinctNames s' := by
  obtain ⟨rs, rfl⟩ := h
  exact distinctNames_growBy hd

theorem foldl_pickLatest_eq_some {l : List Slug} {r : Slug} :
    ∀ {acc : Option Slug}, l.foldl pickLatest acc = some r → acc = some r ∨ r ∈ l := by
  induction l with
  | nil => intro acc h; exact Or.inl h
  | cons x xs ih =>
    intro acc h
    rcases ih h with hstep | hmem
    · cases acc with
      | none =>
        simp only [pickLatest] at hstep
        exact Or.inr (by simp [Option.some_injective _ hstep])
      | some b =>
        simp only [pickLatest] at hstep
        split at hstep
        · exact Or.inr (by simp [(Option.some_injective _ hstep).symm])
        · exact Or.inl hstep
    · exact Or.inr (List.mem_cons_of_mem _ hmem)

theorem foldl_pickLatest_ge {l : List Slug} {r : Slug} :
    ∀ {acc : Option Slug}, l.foldl pickLatest acc = some r →
      (∀ x ∈ l, x.createdOn ≤ r.createdOn) ∧
      (∀ a, acc = some a → a.createdOn ≤ r.createdOn) := by
  induction l with
  | nil =>
    intro acc h
    exact ⟨by simp, fun a ha => by rw [ha] at h; simp_all⟩
  | cons x xs ih =>
    intro acc h
    obtain ⟨hxs, hacc⟩ := ih (show xs.foldl pickLatest (pickLatest acc x) = some r from h)
    have hx : x.createdOn ≤ r.createdOn := by
      cases acc with
      | none => exact hacc x rfl
      | some b =>
        simp only [pickLatest] at hacc
        split at hacc
        · exact hacc x rfl
        · exact le_trans (by omega) (hacc b rfl)
    refine ⟨fun y hy => ?_, fun a ha => ?_⟩
    · rcases List.mem_cons.mp hy with rfl | hy
      · exact hx
      · exact hxs y hy
    · subst ha
      simp only [pickLatest] at hacc
      split at hacc
      · exact le_trans (by omega) (hacc x rfl)
      · exact hacc a rfl

theorem foldl_pickLatest_ne_none {l : List Slug} :
    ∀ {acc : Option Slug}, acc.isSome ∨ l ≠ [] → (l.foldl pickLatest acc).isSome := by
  induction l with
  | nil =>
    intro acc h
    rcases h with h | h
    · exact h
    · exact absurd rfl h
  | cons x xs ih =>
    intro acc _
    apply ih
    cases acc <;> simp [pickLatest]
    split <;> simp

theorem queryLatest_mem {s : Store} {p : Slug → Bool} {r : Slug}
    (h : queryLatest s p = some r) : r ∈ s ∧ p r = true := by
  suffices hmem : r ∈ s.filter p by
    exact ⟨List.mem_of_mem_filter hmem, List.of_mem_filter hmem⟩
  rcases foldl_pickLatest_eq_some h with hc | hc
  · exact absurd hc (by simp)
  · exact hc

theorem queryLatest_ge {s : Store} {p : Slug → Bool} {r : Slug}
    (h : queryLatest s p = some r) :
    ∀ x ∈ s, p x = true → x.createdOn ≤ r.createdOn := by
  intro x hx hpx
  exact (foldl_pickLatest_ge h).1 x (List.mem_filter.mpr ⟨hx, hpx⟩)

theorem queryLatest_isSome {s : Store} {p : Slug → Bool} {b : Slug}
    (hb : b ∈ s) (hpb : p b = true) : (queryLatest s p).isSome := by
  apply foldl_pickLatest_ne_none
  exact Or.inr (List.ne_nil_of_mem (List.mem_filter.mpr ⟨hb, hpb⟩))

/-- If `b` matches and strictly dominates every other matching row by
`createdOn`, the limit-1 descending query returns `b`. -/
theorem queryLatest_eq_of_max {s : Store} {p : Slug → Bool} (b : Slug)
    (hb : b ∈ s) (hpb : p b = true)
    (hmax : ∀ x ∈ s, p x = true → x ≠ b → x.createdOn < b.createdOn) :
    queryLatest s p = some b := by
  obtain ⟨r, hr⟩ := Option.isSome_iff_exists.mp (queryLatest_isSome hb hpb)
  obtain ⟨hrmem, hrp⟩ := queryLatest_mem hr
  rcases eq_or_ne r b with rfl | hne
  · exact hr
  · have h1 := queryLatest_ge hr b hb hpb
    have h2 := hmax r hrmem hrp hne
    omega

theorem digitsToNat_foldl (a : Nat) (l : List Char) :
    l.foldl (fun acc c => acc * 10 + (c.toNat - 48)) a = a * 10 ^ l.length + digitsToNat l := by
  induction l generalizing a with
  | nil => simp [digitsToNat]
  | cons c t ih =>
    have hc : digitsToNat (c :: t) = (c.toNat - 48) * 10 ^ t.length + digitsToNat t := by
      have := ih (0 * 10 + (c.toNat - 48))
      simpa [digitsToNat] using this
    simp only [List.foldl_cons, ih (a * 10 + (c.toNat - 48)), hc, List.length_cons]
    ring

theorem digitsToNat_append (l1 l2 : List Char) :
    digitsToNat (l1 ++ l2) = digitsToNat l1 * 10 ^ l2.length + digitsToNat l2 := by
  simp [digitsToNat, List.foldl_append]
  exact digitsToNat_foldl _ l2

theorem digitChar_isDigit : ∀ d < 10, isDigit (Nat.digitChar d) = true := by decide

theorem digitChar_val : ∀ d < 10, (Nat.digitChar d).toNat - 48 = d := by decide

theorem natToDigitsAux_spec : ∀ fuel n, n < fuel →
    natToDigitsAux fuel n ≠ [] ∧ (∀ c ∈ natToDigitsAux fuel n, isDigit c = true) ∧
    digitsToNat (natToDigitsAux fuel n) = n := by
  intro fuel
  induction fuel with
  | zero => intro n h; omega
  | succ fuel ih =>
    intro n hn
    unfold natToDigitsAux
    split
    · refine ⟨by simp, ?_, ?_⟩
      · intro c hc
        rw [List.mem_singleton] at hc
        subst hc
        exact digitChar_isDigit n (by omega)
      · simpa [digitsToNat] using digitChar_val n (by omega)
    · rename_i h10
      have hlt : n / 10 < fuel := by
        have := Nat.div_lt_self (show 0 < n by omega) (show (1 : Nat) < 10 by omega)
        omega
      obtain ⟨hne, hdig, hval⟩ := ih (n / 10) hlt
      refine ⟨by simp, ?_, ?_⟩
      · intro c hc
        rcases List.mem_append.mp hc with hc | hc
        · exact hdig c hc
        · rw [List.mem_singleton] at hc
          subst hc
          exact digitChar_isDigit (n % 10) (Nat.mod_lt _ (by omega))
      · rw [digitsToNat_append, hval]
        have : digitsToNat [Nat.digitChar (n % 10)] = n % 10 := by
          simpa [digitsToNat] using digitChar_val (n % 10) (Nat.mod_lt _ (by omega))
        simp [this]
        omega

theorem natToDigits_ne_nil (n : Nat) : natToDigits n ≠ [] :=
  (natToDigitsAux_spec (n + 1) n (by omega)).1

theorem natToDigits_isDigit (n : Nat) : ∀ c ∈ natToDigits n, isDigit c = true :=
  (natToDigitsAux_spec (n + 1) n (by omega)).2.1

theorem digitsToNat_natToDigits (n : Nat) : digitsToNat (natToDigits n) = n :=
  (natToDigitsAux_spec (n + 1) n (by omega)).2.2

theorem isDigit_ne_signs {c : Char} (h : isDigit c = true) : c ≠ '-' ∧ c ≠ '+' := by
  constructor <;> rintro rfl <;> simp [isDigit] at h

theorem parseDecimal_digits {cs : List Char} (h1 : cs ≠ [])
    (h2 : ∀ c ∈ cs, isDigit c = true) :
    parseDecimal cs = some ⟨(digitsToNat cs : ℤ), 0⟩ := by
  unfold parseDecimal
  have ht : cs.takeWhile isDigit = cs := List.takeWhile_eq_self_iff.mpr h2
  have hd : cs.dropWhile isDigit = [] := List.dropWhile_eq_nil_iff.mpr h2
  simp only [ht, hd]
  simp [List.isEmpty_iff, h1]

/-- Round trip: the decimal rendering of a natural number coerces back to it
under the `Number()` model. -/
theorem jsNumber_natToDigitString (n : Nat) :
    jsNumber (natToDigitString n) = some ⟨(n : ℤ), 0⟩ := by
  unfold jsNumber natToDigitString
  cases hl : natToDigits n with
  | nil => exact absurd hl (natToDigits_ne_nil n)
  | cons c rest =>
    have hdig : ∀ x ∈ c :: rest, isDigit x = true := by
      rw [← hl]; exact natToDigits_isDigit n
    obtain ⟨hm, hp⟩ := isDigit_ne_signs (hdig c (by simp))
    have hval : digitsToNat (c :: rest) = n := by
      rw [← hl]; exact digitsToNat_natToDigits n
    simp only [hm, hp, if_false]
    rw [parseDecimal_digits (by simp) hdig, hval]

theorem jsNumToString_ofNat (k : Nat) : jsNumToString ⟨(k : ℤ), 0⟩ = natToDigitString k := by
  unfold jsNumToString
  have h : ¬ ((k : ℤ) < 0) := by omega
  simp [h]

theorem addOne_ofNat (k : Nat) : JsDec.addOne ⟨(k : ℤ), 0⟩ = ⟨((k + 1 : ℕ) : ℤ), 0⟩ := by
  simp [JsDec.addOne]

/-- The store a `qualifiedSaveC` call ends with evolves from the one it
started with by primary-key inserts only. -/
theorem qualifiedSaveC_evolves (sch : Schedule) (store : Store) (slug0 : Slug) :
    Evolves store (qualifiedSaveC sch store slug0).2.1 := by
  obtain ⟨f1, g1, fq1, g2, fq2, g3, f2⟩ := sch
  unfold qualifiedSaveC
  cases f1 with
  | some e => exact Evolves.rfl
  | none =>
    simp only
    split
    · exact evolves_insertIfAbsent (by assumption)
    · cases fq1 with
      | some e => exact evolves_growBy _
      | none =>
        simp only
        split
        · exact evolves_growBy _
        · cases fq2 with
          | some e => exact (evolves_growBy _).trans (evolves_growBy _)
          | none =>
            simp only
            cases f2 with
            | some e =>
              exact ((evolves_growBy _).trans (evolves_growBy _)).trans (evolves_growBy _)
            | none =>
              simp only
              split
              · exact (((evolves_growBy _).trans (evolves_growBy _)).trans
                  (evolves_growBy _)).trans (evolves_insertIfAbsent (by assumption))
              · exact ((evolves_growBy _).trans (evolves_growBy _)).trans (evolves_growBy _)

/-- A record a `qualifiedSaveC` call resolves with is present in the store
at resolution time: every success path either persisted a fresh row or
returned an already-persisted row. -/
theorem qualifiedSaveC_resolved_mem {sch : Schedule} {store : Store} {slug0 r : Slug}
    (h : (qualifiedSaveC sch store slug0).1 = .resolved r) :
    r ∈ (qualifiedSaveC sch store slug0).2.1 := by
  obtain ⟨f1, g1, fq1, g2, fq2, g3, f2⟩ := sch
  unfold qualifiedSaveC at h ⊢
  cases f1 with
  | some e => exact absurd h (by simp)
  | none =>
    simp only at h ⊢
    split at h
    · rename_i s' hins
      obtain ⟨rfl, -⟩ := insertIfAbsent_eq_some hins
      simp_all
    · cases fq1 with
      | some e => exact absurd h (by simp at h)
      | none =>
        simp only at h ⊢
        split at h
        · rename_i rq hq
          have := (queryLatest_mem hq).1
          simp_all
        · cases fq2 with
          | some e => exact absurd h (by simp at h)
          | none =>
            simp only at h ⊢
            cases f2 with
            | some e => exact absurd h (by simp at h)
            | none =>
              simp only at h ⊢
              split at h
              · rename_i s' hins
                obtain ⟨rfl, -⟩ := insertIfAbsent_eq_some hins
                simp_all
              · exact absurd h (by simp at h)

/-- The qualifier string the disambiguation retry mints against `store` for
base name `n` (the value of `String(latestQualifier)` in the source). -/
def mintedQualifier (store : Store) (n : String) : String :=
  jsNumToString (latestQualifier (queryLatest store (fun x => x.baseName == n)))

/-- The record the disambiguation retry attempts to save. -/
def retrySlug (store : Store) (slug0 : Slug) : Slug :=
  { slug0 with
    baseName := slug0.name
    name := slug0.name ++ "-" ++ mintedQualifier store slug0.name
    qualifierPart := some (mintedQualifier store slug0.name) }

theorem hasName_append_left {s : Store} {n : String} (l : Store)
    (h : hasName s n = true) : hasName (s ++ l) n = true := by
  simp only [hasName, List.any_append, Bool.or_eq_true]
  exact Or.inl h

/-- Conflict-free path of `qualifiedSave`: the first save succeeds. -/
theorem qualifiedSave_insert_eq (store : Store) (slug0 : Slug)
    (h : hasName store slug0.name = false) :
    qualifiedSave store slug0 =
      (.resolved { slug0 with baseName := slug0.name },
       store ++ [{ slug0 with baseName := slug0.name }]) := by
  unfold qualifiedSave insertIfAbsent
  simp [h]

/-- Idempotency path of `qualifiedSave`: the first save collides and this
`thingID` already owns the base name. -/
theorem qualifiedSave_dup_q1_eq (store : Store) (slug0 r : Slug)
    (hdup : hasName store slug0.name = true)
    (hq1 : queryLatest store
      (fun x => x.baseName == slug0.name && x.thingID == slug0.thingID) = some r) :
    qualifiedSave store slug0 = (.resolved r, store) := by
  unfold qualifiedSave insertIfAbsent
  simp [hdup, hq1]

/-- Disambiguation path of `qualifiedSave`: the first save collides, the
owner query misses, and the retry save succeeds. -/
theorem qualifiedSave_retry_eq (store : Store) (slug0 : Slug)
    (hdup : hasName store slug0.name = true)
    (hq1 : queryLatest store
      (fun x => x.baseName == slug0.name && x.thingID == slug0.thingID) = none)
    (hfree : hasName store (slug0.name ++ "-" ++ mintedQualifier store slug0.name) = false) :
    qualifiedSave store slug0 =
      (.resolved (retrySlug store slug0), store ++ [retrySlug store slug0]) := by
  simp only [mintedQualifier] at hfree
  unfold qualifiedSave insertIfAbsent
  simp [hdup, hq1, retrySlug, mintedQualifier, hfree]

/-- Conflict path of `qualifiedSave`: the retry save collides too and the
raw duplicate-key error is surfaced. -/
theorem qualifiedSave_conflict_eq (store : Store) (slug0 : Slug)
    (hdup : hasName store slug0.name = true)
    (hq1 : queryLatest store
      (fun x => x.baseName == slug0.name && x.thingID == slug0.thingID) = none)
    (hbusy : hasName store (slug0.name ++ "-" ++ mintedQualifier store slug0.name) = true) :
    qualifiedSave store slug0 = (.rejected .duplicatePrimaryKey, store) := by
  simp only [mintedQualifier] at hbusy
  unfold qualifiedSave insertIfAbsent
  simp [hdup, hq1, hbusy]

theorem mintedQualifier_eq_of_query {store : Store} {n : String} {m : Slug}
    {qs : String} {v : JsDec}
    (hq2 : queryLatest store (fun x => x.baseName == n) = some m)
    (hqs : m.qualifierPart = some qs)
    (hv : jsNumber qs = some v) :
    mintedQualifier store n = jsNumToString v.addOne := by
  simp [mintedQualifier, latestQualifier, hq2, hqs, hv]

theorem mintedQualifier_fallback {store : Store} {n : String}
    (h : queryLatest store (fun x => x.baseName == n) = none ∨
      ∃ m, queryLatest store (fun x => x.baseName == n) = some m ∧
        (m.qualifierPart = none ∨
         ∃ qs, m.qualifierPart = some qs ∧ jsNumber qs = none)) :
    mintedQualifier store n = "2" := by
  have h2 : jsNumToString ⟨2, 0⟩ = "2" := by decide
  rcases h with h | ⟨m, hm, hqp | ⟨qs, hqs, hnan⟩⟩ <;>
    simp [mintedQualifier, latestQualifier, *]

/-- C1: over any interleaving of `qualifiedSave` calls (captured by
per-call schedules of concurrent inserts) in a deletion-free history, every
success either persisted a fresh row under the primary-key constraint or
returned an already-persisted row, and two distinct successfully returned
records never share a `name`: whenever both calls' resolution-time stores
evolve into a common store `S`, distinct results have distinct names. -/
theorem C1_uniqueness :
    (∀ (sch : Schedule) (store : Store) (slug0 r : Slug),
      (qualifiedSaveC sch store slug0).1 = .resolved r →
      r ∈ (qualifiedSaveC sch store slug0).2.1) ∧
    (∀ (sch1 sch2 : Schedule) (s1 s2 S : Store) (a b r1 r2 : Slug),
      DistinctNames s1 →
      (qualifiedSaveC sch1 s1 a).1 = .resolved r1 →
      (qualifiedSaveC sch2 s2 b).1 = .resolved r2 →
      Evolves (qualifiedSaveC sch1 s1 a).2.1 S →
      Evolves (qualifiedSaveC sch2 s2 b).2.1 S →
      r1 ≠ r2 → r1.name ≠ r2.name) := by
  refine ⟨fun sch store slug0 r h => qualifiedSaveC_resolved_mem h, ?_⟩
  intro sch1 sch2 s1 s2 S a b r1 r2 hd h1 h2 hS1 hS2 hne heq
  have hm1 : r1 ∈ S := mem_of_evolves hS1 (qualifiedSaveC_resolved_mem h1)
  have hm2 : r2 ∈ S := mem_of_evolves hS2 (qualifiedSaveC_resolved_mem h2)
  have hdS : DistinctNames S :=
    distinctNames_of_evolves hS1
      (distinctNames_of_evolves (qualifiedSaveC_evolves sch1 s1 a) hd)
  exact hne (hdS r1 hm1 r2 hm2 heq)

theorem C1_uniqueness_witness :
    (⟨"a", "a", none, "A", 1, "x"⟩ : Slug).name ≠
      (⟨"b", "b", none, "B", 2, "y"⟩ : Slug).name :=
  C1_uniqueness.2 Schedule.quiet Schedule.quiet []
    [⟨"a", "a", none, "A", 1, "x"⟩]
    [⟨"a", "a", none, "A", 1, "x"⟩, ⟨"b", "b", none, "B", 2, "y"⟩]
    ⟨"a", "a", none, "A", 1, "x"⟩ ⟨"b", "b", none, "B", 2, "y"⟩
    ⟨"a", "a", none, "A", 1, "x"⟩ ⟨"b", "b", none, "B", 2, "y"⟩
    (by intro x hx; simp at hx)
    (by decide) (by decide)
    ⟨[⟨"b", "b", none, "B", 2, "y"⟩], by decide⟩
    ⟨[], by decide⟩
    (by decide)

/-- C7: when the desired name is not yet present (in particular on an empty
store), the first insert succeeds and the call resolves with the candidate:
`name = baseName = desiredName`, no `qualifierPart`, and the store has grown
by exactly that one row. -/
theorem C7_first_use (store : Store) (desiredName thingID : String) (ts : Nat)
    (actor : String) (h : hasName store desiredName = false) :
    allocate store desiredName thingID ts actor =
      (.resolved ⟨desiredName, desiredName, none, thingID, ts, actor⟩,
       store ++ [⟨desiredName, desiredName, none, thingID, ts, actor⟩]) := by
  unfold allocate
  exact qualifiedSave_insert_eq store ⟨desiredName, desiredName, none, thingID, ts, actor⟩ h

theorem C7_first_use_witness :
    allocate [] "my-review" "subjectA" 1 "actorX" =
      (.resolved ⟨"my-review", "my-review", none, "subjectA", 1, "actorX"⟩,
       [⟨"my-review", "my-review", none, "subjectA", 1, "actorX"⟩]) := by
  simpa using C7_first_use [] "my-review" "subjectA" 1 "actorX" (by decide)

/-- C9: a store failure that is not a duplicate-primary-key collision is
rejected with that error unchanged (never as a uniqueness conflict): a
failing first save performs no disambiguation query and no retry whatever
the rest of the schedule holds, and a failure at any later store call stops
the allocation right there with the store unchanged by this call. -/
theorem C9_error_propagation (store : Store) (slug0 : Slug) (e : String)
    (g1 g2 g3 : List Slug) (fq1 fq2 f2 : Option String) :
    (qualifiedSaveC ⟨some e, g1, fq1, g2, fq2, g3, f2⟩ store slug0 =
      (.rejected (.other e), store, [.insert1])) ∧
    (JsError.other e ≠ .duplicatePrimaryKey) ∧
    (hasName store slug0.name = true →
      qualifiedSaveC ⟨none, g1, some e, g2, fq2, g3, f2⟩ store slug0 =
        (.rejected (.other e), growBy store g1, [.insert1, .query1])) ∧
    (hasName store slug0.name = true →
      queryLatest (growBy store g1)
        (fun x => x.baseName == slug0.name && x.thingID == slug0.thingID) = none →
      qualifiedSaveC ⟨none, g1, none, g2, some e, g3, f2⟩ store slug0 =
        (.rejected (.other e), growBy (growBy store g1) g2,
         [.insert1, .query1, .query2])) ∧
    (hasName store slug0.name = true →
      queryLatest (growBy store g1)
        (fun x => x.baseName == slug0.name && x.thingID == slug0.thingID) = none →
      qualifiedSaveC ⟨none, g1, none, g2, none, g3, some e⟩ store slug0 =
        (.rejected (.other e), growBy (growBy (growBy store g1) g2) g3,
         [.insert1, .query1, .query2, .insert2])) := by
  refine ⟨rfl, by simp, ?_, ?_, ?_⟩
  · intro hdup
    unfold qualifiedSaveC insertIfAbsent
    simp [hdup]
  · intro hdup hq1
    unfold qualifiedSaveC insertIfAbsent
    simp [hdup, hq1]
  · intro hdup hq1
    unfold qualifiedSaveC insertIfAbsent
    simp [hdup, hq1]

theorem C9_error_propagation_witness :
    qualifiedSaveC ⟨some "ReqlDriverError", [], none, [], none, [], none⟩
        [] ⟨"a", "a", none, "A", 1, "x"⟩ =
      (.rejected (.other "ReqlDriverError"), [], [.insert1]) :=
  (C9_error_propagation [] ⟨"a", "a", none, "A", 1, "x"⟩ "ReqlDriverError"
    [] [] [] none none none).1

/-- C5: when the first insert collides, the base name is not owned by the
requesting subject, and the most recent same-`baseName` row carries a
qualifier that coerces to the integer `k`, the allocation resolves with
`name = baseName ++ "-" ++ (k+1)` and `qualifierPart = (k+1)`; concretely,
on a store holding only `{name: "my-review"}`, a second subject obtains
`{name: "my-review-2", baseName: "my-review", qualifierPart: "2"}`. -/
theorem C5_disambiguation :
    (∀ (store : Store) (slug0 m : Slug) (qs : String) (k : Nat),
      hasName store slug0.name = true →
      queryLatest store
        (fun x => x.baseName == slug0.name && x.thingID == slug0.thingID) = none →
      queryLatest store (fun x => x.baseName == slug0.name) = some m →
      m.qualifierPart = some qs →
      jsNumber qs = some ⟨(k : ℤ), 0⟩ →
      hasName store (slug0.name ++ "-" ++ natToDigitString (k + 1)) = false →
      qualifiedSave store slug0 =
        (.resolved { slug0 with
            baseName := slug0.name
            name := slug0.name ++ "-" ++ natToDigitString (k + 1)
            qualifierPart := some (natToDigitString (k + 1)) },
         store ++ [{ slug0 with
            baseName := slug0.name
            name := slug0.name ++ "-" ++ natToDigitString (k + 1)
            qualifierPart := some (natToDigitString (k + 1)) }])) ∧
    allocate [⟨"my-review", "my-review", none, "subjectA", 1, "actorX"⟩]
        "my-review" "subjectB" 2 "actorY" =
      (.resolved ⟨"my-review-2", "my-review", some "2", "subjectB", 2, "actorY"⟩,
       [⟨"my-review", "my-review", none, "subjectA", 1, "actorX"⟩,
        ⟨"my-review-2", "my-review", some "2", "subjectB", 2, "actorY"⟩]) := by
  constructor
  · intro store slug0 m qs k hdup hq1 hq2 hqs hv hfree
    have hmq : mintedQualifier store slug0.name = natToDigitString (k + 1) := by
      rw [mintedQualifier_eq_of_query hq2 hqs hv, addOne_ofNat, jsNumToString_ofNat]
    have hfree' :
        hasName store (slug0.name ++ "-" ++ mintedQualifier store slug0.name) = false := by
      rw [hmq]; exact hfree
    rw [qualifiedSave_retry_eq store slug0 hdup hq1 hfree']
    simp [retrySlug, hmq]
  · decide

theorem C5_disambiguation_witness :
    qualifiedSave
        [⟨"r", "r", some "4", "Z", 5, "w"⟩]
        ⟨"r", "r", none, "B", 6, "y"⟩ =
      (.resolved ⟨"r-5", "r", some "5", "B", 6, "y"⟩,
       [⟨"r", "r", some "4", "Z", 5, "w"⟩, ⟨"r-5", "r", some "5", "B", 6, "y"⟩]) := by
  have h := C5_disambiguation.1 [⟨"r", "r", some "4", "Z", 5, "w"⟩]
    ⟨"r", "r", none, "B", 6, "y"⟩ ⟨"r", "r", some "4", "Z", 5, "w"⟩ "4" 4
    (by decide) (by decide) (by decide) (by decide) (by decide) (by decide)
  simpa using h

/-- C6: on the disambiguation path, when the most recent same-`baseName`
row is missing or its `qualifierPart` is absent or non-numeric, the next
allocation uses qualifier `"2"`. -/
theorem C6_fallback (store : Store) (slug0 : Slug)
    (hdup : hasName store slug0.name = true)
    (hq1 : queryLatest store
      (fun x => x.baseName == slug0.name && x.thingID == slug0.thingID) = none)
    (hq2 : queryLatest store (fun x => x.baseName == slug0.name) = none ∨
      ∃ m, queryLatest store (fun x => x.baseName == slug0.name) = some m ∧
        (m.qualifierPart = none ∨
         ∃ qs, m.qualifierPart = some qs ∧ jsNumber qs = none))
    (hfree : hasName store (slug0.name ++ "-" ++ "2") = false) :
    qualifiedSave store slug0 =
      (.resolved { slug0 with
          baseName := slug0.name
          name := slug0.name ++ "-" ++ "2"
          qualifierPart := some "2" },
       store ++ [{ slug0 with
          baseName := slug0.name
          name := slug0.name ++ "-" ++ "2"
          qualifierPart := some "2" }]) := by
  have hmq : mintedQualifier store slug0.name = "2" := mintedQualifier_fallback hq2
  have hfree' :
      hasName store (slug0.name ++ "-" ++ mintedQualifier store slug0.name) = false := by
    rw [hmq]; exact hfree
  rw [qualifiedSave_retry_eq store slug0 hdup hq1 hfree']
  simp [retrySlug, hmq]

theorem C6_fallback_witness :
    qualifiedSave
        [⟨"my-review", "my-review", some "zzz", "Z", 5, "w"⟩]
        ⟨"my-review", "my-review", none, "B", 6, "y"⟩ =
      (.resolved ⟨"my-review-2", "my-review", some "2", "B", 6, "y"⟩,
       [⟨"my-review", "my-review", some "zzz", "Z", 5, "w"⟩,
        ⟨"my-review-2", "my-review", some "2", "B", 6, "y"⟩]) := by
  have h := C6_fallback [⟨"my-review", "my-review", some "zzz", "Z", 5, "w"⟩]
    ⟨"my-review", "my-review", none, "B", 6, "y"⟩
    (by decide) (by decide)
    (Or.inr ⟨⟨"my-review", "my-review", some "zzz", "Z", 5, "w"⟩, by decide,
      Or.inr ⟨"zzz", by decide, by decide⟩⟩)
    (by decide)
  simpa using h

/-- C10: the retry uses `Number(qualifierPart) + 1` whenever the coercion is
non-NaN, with no integrality or `≥ 2` check: the empty string and `"0"`
coerce to 0, `"-3"` to -3, `"2.5"` to 2.5, and anomalous stores make the
allocator mint qualifiers `"1"`, `"3.5"`, or even `"-2"`. -/
theorem C10_numeric_coercion :
    (∀ (store : Store) (slug0 m : Slug) (qs : String) (v : JsDec),
      hasName store slug0.name = true →
      queryLatest store
        (fun x => x.baseName == slug0.name && x.thingID == slug0.thingID) = none →
      queryLatest store (fun x => x.baseName == slug0.name) = some m →
      m.qualifierPart = some qs →
      jsNumber qs = some v →
      hasName store (slug0.name ++ "-" ++ jsNumToString v.addOne) = false →
      qualifiedSave store slug0 =
        (.resolved { slug0 with
            baseName := slug0.name
            name := slug0.name ++ "-" ++ jsNumToString v.addOne
            qualifierPart := some (jsNumToString v.addOne) },
         store ++ [{ slug0 with
            baseName := slug0.name
            name := slug0.name ++ "-" ++ jsNumToString v.addOne
            qualifierPart := some (jsNumToString v.addOne) }])) ∧
    jsNumber "" = some ⟨0, 0⟩ ∧
    jsNumber "0" = some ⟨0, 0⟩ ∧
    jsNumber "-3" = some ⟨-3, 0⟩ ∧
    jsNumber "2.5" = some ⟨25, 1⟩ ∧
    (allocate [⟨"x", "x", some "0", "A", 1, "u"⟩] "x" "B" 2 "y").1 =
      .resolved ⟨"x-1", "x", some "1", "B", 2, "y"⟩ ∧
    (allocate [⟨"x", "x", some "2.5", "A", 1, "u"⟩] "x" "B" 2 "y").1 =
      .resolved ⟨"x-3.5", "x", some "3.5", "B", 2, "y"⟩ ∧
    (allocate [⟨"x", "x", some "-3", "A", 1, "u"⟩] "x" "B" 2 "y").1 =
      .resolved ⟨"x--2", "x", some "-2", "B", 2, "y"⟩ := by
  refine ⟨?_, by decide, by decide, by decide, by decide, by decide, by decide, by decide⟩
  intro store slug0 m qs v hdup hq1 hq2 hqs hv hfree
  have hmq : mintedQualifier store slug0.name = jsNumToString v.addOne :=
    mintedQualifier_eq_of_query hq2 hqs hv
  have hfree' :
      hasName store (slug0.name ++ "-" ++ mintedQualifier store slug0.name) = false := by
    rw [hmq]; exact hfree
  rw [qualifiedSave_retry_eq store slug0 hdup hq1 hfree']
  simp [retrySlug, hmq]

theorem C10_numeric_coercion_witness :
    qualifiedSave
        [⟨"x", "x", some "0.5", "A", 1, "u"⟩]
        ⟨"x", "x", none, "B", 2, "y"⟩ =
      (.resolved ⟨"x-1.5", "x", some "1.5", "B", 2, "y"⟩,
       [⟨"x", "x", some "0.5", "A", 1, "u"⟩,
        ⟨"x-1.5", "x", some "1.5", "B", 2, "y"⟩]) := by
  have h := C10_numeric_coercion.1 [⟨"x", "x", some "0.5", "A", 1, "u"⟩]
    ⟨"x", "x", none, "B", 2, "y"⟩ ⟨"x", "x", some "0.5", "A", 1, "u"⟩ "0.5" ⟨5, 1⟩
    (by decide) (by decide) (by decide) (by decide) (by decide) (by decide)
  simpa using h

/-- C2: if the disambiguation retry's insert also collides, the call
rejects with the raw duplicate-key error (the spec's
ConcurrentAllocationConflict), performs no further query or insert (the
trace ends at the single retry insert, with the store unchanged by it); and
in a race where another writer has already persisted a row bearing the very
name this call's retry computed, this call rejects with that error. -/
theorem C2_conflict :
    (∀ (g1 g2 g3 : List Slug) (store : Store) (slug0 : Slug),
      hasName store slug0.name = true →
      queryLatest (growBy store g1)
        (fun x => x.baseName == slug0.name && x.thingID == slug0.thingID) = none →
      hasName (growBy (growBy (growBy store g1) g2) g3)
        (slug0.name ++ "-" ++
          mintedQualifier (growBy (growBy store g1) g2) slug0.name) = true →
      qualifiedSaveC ⟨none, g1, none, g2, none, g3, none⟩ store slug0 =
        (.rejected .duplicatePrimaryKey,
         growBy (growBy (growBy store g1) g2) g3,
         [.insert1, .query1, .query2, .insert2])) ∧
    (∀ (g1 g2 g3 : List Slug) (sB : Store) (slugB rA : Slug),
      hasName sB slugB.name = true →
      queryLatest (growBy sB g1)
        (fun x => x.baseName == slugB.name && x.thingID == slugB.thingID) = none →
      rA ∈ growBy (growBy (growBy sB g1) g2) g3 →
      rA.name = slugB.name ++ "-" ++
        mintedQualifier (growBy (growBy sB g1) g2) slugB.name →
      (qualifiedSaveC ⟨none, g1, none, g2, none, g3, none⟩ sB slugB).1 =
        .rejected .duplicatePrimaryKey) := by
  have main : ∀ (g1 g2 g3 : List Slug) (store : Store) (slug0 : Slug),
      hasName store slug0.name = true →
      queryLatest (growBy store g1)
        (fun x => x.baseName == slug0.name && x.thingID == slug0.thingID) = none →
      hasName (growBy (growBy (growBy store g1) g2) g3)
        (slug0.name ++ "-" ++
          mintedQualifier (growBy (growBy store g1) g2) slug0.name) = true →
      qualifiedSaveC ⟨none, g1, none, g2, none, g3, none⟩ store slug0 =
        (.rejected .duplicatePrimaryKey,
         growBy (growBy (growBy store g1) g2) g3,
         [.insert1, .query1, .query2, .insert2]) := by
    intro g1 g2 g3 store slug0 hdup hq1 hbusy
    simp only [mintedQualifier] at hbusy
    unfold qualifiedSaveC insertIfAbsent
    simp [hdup, hq1, hbusy]
  refine ⟨main, ?_⟩
  intro g1 g2 g3 sB slugB rA hdup hq1 hmem hname
  have hbusy : hasName (growBy (growBy (growBy sB g1) g2) g3)
      (slugB.name ++ "-" ++
        mintedQualifier (growBy (growBy sB g1) g2) slugB.name) = true :=
    hasName_iff.mpr ⟨rA, hmem, hname⟩
  rw [main g1 g2 g3 sB slugB hdup hq1 hbusy]

theorem C2_conflict_witness :
    (qualifiedSaveC
        ⟨none, [], none, [], none, [⟨"a-2", "a", some "2", "C", 3, "z"⟩], none⟩
        [⟨"a", "a", none, "A", 1, "x"⟩]
        ⟨"a", "a", none, "B", 2, "y"⟩).1 =
      .rejected .duplicatePrimaryKey :=
  C2_conflict.2 [] [] [⟨"a-2", "a", some "2", "C", 3, "z"⟩]
    [⟨"a", "a", none, "A", 1, "x"⟩]
    ⟨"a", "a", none, "B", 2, "y"⟩ ⟨"a-2", "a", some "2", "C", 3, "z"⟩
    (by decide) (by decide) (by decide) (by decide)

/-- C4: a second `Allocate` for the same `(desiredName, subjectID)` pair,
issued after a first one resolved (with timestamps past every row in the
starting store), resolves with the very record the first call returned and
leaves the store unchanged: no second row is created. -/
theorem C4_idempotent (store : Store) (n tid : String) (t1 t2 : Nat) (a1 a2 : String)
    (r : Slug) (store' : Store)
    (hclock : ∀ x ∈ store, x.createdOn < t1)
    (h1 : allocate store n tid t1 a1 = (.resolved r, store')) :
    allocate store' n tid t2 a2 = (.resolved r, store') := by
  unfold allocate at h1 ⊢
  cases hn : hasName store n with
  | false =>
    rw [qualifiedSave_insert_eq store ⟨n, n, none, tid, t1, a1⟩ hn] at h1
    have h1' : (QSResult.resolved (⟨n, n, none, tid, t1, a1⟩ : Slug),
        store ++ [(⟨n, n, none, tid, t1, a1⟩ : Slug)]) = (.resolved r, store') := h1
    rw [Prod.ext_iff] at h1'
    obtain ⟨hr, hs⟩ := h1'
    rw [QSResult.resolved.injEq] at hr
    subst hr
    subst hs
    have hq1 : queryLatest (store ++ [(⟨n, n, none, tid, t1, a1⟩ : Slug)])
        (fun x => x.baseName == n && x.thingID == tid) =
        some ⟨n, n, none, tid, t1, a1⟩ := by
      apply queryLatest_eq_of_max ⟨n, n, none, tid, t1, a1⟩ (by simp) (by simp)
      intro x hx hpx hne
      rcases List.mem_append.mp hx with hx | hx
      · exact hclock x hx
      · rw [List.mem_singleton] at hx
        exact absurd hx hne
    exact qualifiedSave_dup_q1_eq _ ⟨n, n, none, tid, t2, a2⟩ _
      (hasName_iff.mpr ⟨⟨n, n, none, tid, t1, a1⟩, by simp, rfl⟩) hq1
  | true =>
    cases hq : queryLatest store (fun x => x.baseName == n && x.thingID == tid) with
    | some rx =>
      rw [qualifiedSave_dup_q1_eq store ⟨n, n, none, tid, t1, a1⟩ rx hn hq] at h1
      rw [Prod.ext_iff] at h1
      obtain ⟨hr, hs⟩ := h1
      rw [QSResult.resolved.injEq] at hr
      subst hr
      subst hs
      exact qualifiedSave_dup_q1_eq store ⟨n, n, none, tid, t2, a2⟩ rx hn hq
    | none =>
      cases hfree : hasName store (n ++ "-" ++ mintedQualifier store n) with
      | false =>
        rw [qualifiedSave_retry_eq store ⟨n, n, none, tid, t1, a1⟩ hn hq hfree] at h1
        rw [Prod.ext_iff] at h1
        obtain ⟨hr, hs⟩ := h1
        rw [QSResult.resolved.injEq] at hr
        subst hr
        subst hs
        have hq1 : queryLatest (store ++ [retrySlug store ⟨n, n, none, tid, t1, a1⟩])
            (fun x => x.baseName == n && x.thingID == tid) =
            some (retrySlug store ⟨n, n, none, tid, t1, a1⟩) := by
          apply queryLatest_eq_of_max (retrySlug store ⟨n, n, none, tid, t1, a1⟩)
            (by simp) (by simp [retrySlug])
          intro x hx hpx hne
          rcases List.mem_append.mp hx with hx | hx
          · exact hclock x hx
          · rw [List.mem_singleton] at hx
            exact absurd hx hne
        exact qualifiedSave_dup_q1_eq _ ⟨n, n, none, tid, t2, a2⟩ _
          (hasName_append_left _ hn) hq1
      | true =>
        rw [qualifiedSave_conflict_eq store ⟨n, n, none, tid, t1, a1⟩ hn hq hfree] at h1
        simp at h1

theorem C4_idempotent_witness :
    allocate [⟨"my-review", "my-review", none, "subjectA", 1, "actorX"⟩]
        "my-review" "subjectA" 2 "actorX" =
      (.resolved ⟨"my-review", "my-review", none, "subjectA", 1, "actorX"⟩,
       [⟨"my-review", "my-review", none, "subjectA", 1, "actorX"⟩]) := by
  have h := C4_idempotent [] "my-review" "subjectA" 1 2 "actorX" "actorX"
    ⟨"my-review", "my-review", none, "subjectA", 1, "actorX"⟩
    [⟨"my-review", "my-review", none, "subjectA", 1, "actorX"⟩]
    (by simp) (by decide)
  simpa using h

/-- C3 (counterexample): after the base record and the `"-2"` record are
allocated, deleting the `"-2"` record and allocating the same base name for
a third subject does NOT return qualifier `"3"`: the allocator re-derives
the qualifier from the most recent surviving row (the base record, with no
qualifier), falls back to 2, and reuses qualifier `"2"`. -/
theorem C3_counterexample :
    (allocate
        (deleteName
          (allocate (allocate [] "my-review" "subjectA" 1 "actorX").2
            "my-review" "subjectB" 2 "actorY").2
          "my-review-2")
        "my-review" "subjectC" 3 "actorZ").1 =
      .resolved ⟨"my-review-2", "my-review", some "2", "subjectC", 3, "actorZ"⟩ ∧
    (⟨"my-review-2", "my-review", some "2", "subjectC", 3, "actorZ"⟩ : Slug).qualifierPart ≠
      some "3" := by
  decide

/-- C3 (amended): for the fixed base name, successive allocations by three
distinct subjects yield the base record, qualifier `"2"`, then qualifier
`"3"` — provided the `"-2"` record is not deleted in between.  If it is
deleted, the next qualifier is derived from the most recent surviving
same-`baseName` row and qualifier `"2"` is reused. -/
theorem C3_monotonic_amended (sA sB sC aA aB aC : String) (tA tB tC : Nat)
    (hBA : sB ≠ sA) (hCA : sC ≠ sA) (hCB : sC ≠ sB)
    (hAB : tA < tB) (hBC : tB < tC) :
    ((allocate (allocate (allocate [] "my-review" sA tA aA).2
        "my-review" sB tB aB).2 "my-review" sC tC aC).1 =
      .resolved ⟨"my-review-3", "my-review", some "3", sC, tC, aC⟩) ∧
    ((allocate (deleteName
        (allocate (allocate [] "my-review" sA tA aA).2 "my-review" sB tB aB).2
        "my-review-2") "my-review" sC tC aC).1 =
      .resolved ⟨"my-review-2", "my-review", some "2", sC, tC, aC⟩) := by
  have hab : (sA == sB) = false := by
    simp only [beq_eq_false_iff_ne, ne_eq]
    exact fun h => hBA h.symm
  have hac : (sA == sC) = false := by
    simp only [beq_eq_false_iff_ne, ne_eq]
    exact fun h => hCA h.symm
  have hbc : (sB == sC) = false := by
    simp only [beq_eq_false_iff_ne, ne_eq]
    exact fun h => hCB h.symm
  -- first call: conflict-free insert of the base record
  have h1 : (allocate [] "my-review" sA tA aA).2 =
      [⟨"my-review", "my-review", none, sA, tA, aA⟩] := by
    unfold allocate
    rw [qualifiedSave_insert_eq [] ⟨"my-review", "my-review", none, sA, tA, aA⟩
      (by simp [hasName])]
    rfl
  rw [h1]
  -- second call: retry mints "2"
  have hmq2 : mintedQualifier [⟨"my-review", "my-review", none, sA, tA, aA⟩]
      "my-review" = "2" := by
    apply mintedQualifier_fallback
    exact Or.inr ⟨⟨"my-review", "my-review", none, sA, tA, aA⟩,
      by simp [queryLatest, pickLatest], Or.inl rfl⟩
  have h2 : (allocate [⟨"my-review", "my-review", none, sA, tA, aA⟩]
      "my-review" sB tB aB).2 =
      [⟨"my-review", "my-review", none, sA, tA, aA⟩,
       ⟨"my-review-2", "my-review", some "2", sB, tB, aB⟩] := by
    unfold allocate
    rw [qualifiedSave_retry_eq [⟨"my-review", "my-review", none, sA, tA, aA⟩]
      ⟨"my-review", "my-review", none, sB, tB, aB⟩
      (by simp [hasName])
      (by simp [queryLatest, hab])
      (by rw [hmq2]; simp [hasName])]
    simp [retrySlug, hmq2]
  rw [h2]
  constructor
  -- third call without deletion: retry mints "3"
  · have hq2 : queryLatest
        [⟨"my-review", "my-review", none, sA, tA, aA⟩,
         ⟨"my-review-2", "my-review", some "2", sB, tB, aB⟩]
        (fun x => x.baseName == "my-review") =
        some ⟨"my-review-2", "my-review", some "2", sB, tB, aB⟩ := by
      apply queryLatest_eq_of_max ⟨"my-review-2", "my-review", some "2", sB, tB, aB⟩
        (by simp) (by simp)
      intro x hx hpx hne
      rcases List.mem_cons.mp hx with rfl | hx
      · exact hAB
      · rcases List.mem_cons.mp hx with rfl | hx
        · exact absurd rfl hne
        · simp at hx
    have hmq3 : mintedQualifier
        [⟨"my-review", "my-review", none, sA, tA, aA⟩,
         ⟨"my-review-2", "my-review", some "2", sB, tB, aB⟩] "my-review" = "3" := by
      rw [mintedQualifier_eq_of_query hq2 rfl (show jsNumber "2" = some ⟨2, 0⟩ by decide)]
      decide
    unfold allocate
    rw [qualifiedSave_retry_eq
      [⟨"my-review", "my-review", none, sA, tA, aA⟩,
       ⟨"my-review-2", "my-review", some "2", sB, tB, aB⟩]
      ⟨"my-review", "my-review", none, sC, tC, aC⟩
      (by simp [hasName])
      (by simp [queryLatest, hac, hbc])
      (by rw [hmq3]; simp [hasName])]
    simp [retrySlug, hmq3]
  -- third call after deleting the "-2" record: qualifier "2" is reused
  · have hdel : deleteName
        [⟨"my-review", "my-review", none, sA, tA, aA⟩,
         ⟨"my-review-2", "my-review", some "2", sB, tB, aB⟩] "my-review-2" =
        [⟨"my-review", "my-review", none, sA, tA, aA⟩] := by
      simp [deleteName]
    rw [hdel]
    unfold allocate
    rw [qualifiedSave_retry_eq [⟨"my-review", "my-review", none, sA, tA, aA⟩]
      ⟨"my-review", "my-review", none, sC, tC, aC⟩
      (by simp [hasName])
      (by simp [queryLatest, hac])
      (by rw [hmq2]; simp [hasName])]
    simp [retrySlug, hmq2]

theorem C3_monotonic_amended_witness :
    (allocate (allocate (allocate [] "my-review" "subjectA" 1 "actorX").2
        "my-review" "subjectB" 2 "actorY").2 "my-review" "subjectC" 3 "actorZ").1 =
      .resolved ⟨"my-review-3", "my-review", some "3", "subjectC", 3, "actorZ"⟩ :=
  (C3_monotonic_amended "subjectA" "subjectB" "subjectC" "actorX" "actorY" "actorZ"
    1 2 3 (by decide) (by decide) (by decide) (by omega) (by omega)).1

/-- Stores built exclusively by the allocator, starting empty. -/
inductive ReachableStore : Store → Prop where
  | empty : ReachableStore []
  | step (s : Store) (n tid : String) (ts : Nat) (actor : String) :
      ReachableStore s → ReachableStore (allocate s n tid ts actor).2

/-- Structural invariant of §3 of the spec: no qualifier means
`name = baseName`; a qualifier `qs` means `name = baseName ++ "-" ++ qs`
with `qs` the decimal rendering of an integer ≥ 2. -/
def WellFormedSlug (r : Slug) : Prop :=
  (r.qualifierPart = none → r.name = r.baseName) ∧
  ∀ qs, r.qualifierPart = some qs →
    r.name = r.baseName ++ "-" ++ qs ∧ ∃ k : Nat, 2 ≤ k ∧ qs = natToDigitString k

theorem mintedQualifier_wf {s : Store} (n : String)
    (hwf : ∀ r ∈ s, WellFormedSlug r) :
    ∃ k : Nat, 2 ≤ k ∧ mintedQualifier s n = natToDigitString k := by
  cases hq : queryLatest s (fun x => x.baseName == n) with
  | none =>
    refine ⟨2, by omega, ?_⟩
    rw [mintedQualifier_fallback (Or.inl hq)]
    decide
  | some m =>
    obtain ⟨hm, -⟩ := queryLatest_mem hq
    obtain ⟨h0, hsome⟩ := hwf m hm
    cases hqp : m.qualifierPart with
    | none =>
      refine ⟨2, by omega, ?_⟩
      rw [mintedQualifier_fallback (Or.inr ⟨m, hq, Or.inl hqp⟩)]
      decide
    | some qs =>
      obtain ⟨-, k, hk2, rfl⟩ := hsome qs hqp
      refine ⟨k + 1, by omega, ?_⟩
      rw [mintedQualifier_eq_of_query hq hqp (jsNumber_natToDigitString k),
        addOne_ofNat, jsNumToString_ofNat]

theorem allocate_preserves_wf (s : Store) (n tid : String) (ts : Nat) (actor : String)
    (hwf : ∀ r ∈ s, WellFormedSlug r) :
    ∀ r ∈ (allocate s n tid ts actor).2, WellFormedSlug r := by
  unfold allocate
  cases hn : hasName s n with
  | false =>
    rw [qualifiedSave_insert_eq s ⟨n, n, none, tid, ts, actor⟩ hn]
    intro r hr
    rcases List.mem_append.mp hr with hr | hr
    · exact hwf r hr
    · rw [List.mem_singleton] at hr
      subst hr
      exact ⟨fun _ => rfl, fun qs hqs => absurd hqs (by simp)⟩
  | true =>
    cases hq : queryLatest s (fun x => x.baseName == n && x.thingID == tid) with
    | some rx =>
      rw [qualifiedSave_dup_q1_eq s ⟨n, n, none, tid, ts, actor⟩ rx hn hq]
      exact hwf
    | none =>
      cases hfree : hasName s (n ++ "-" ++ mintedQualifier s n) with
      | true =>
        rw [qualifiedSave_conflict_eq s ⟨n, n, none, tid, ts, actor⟩ hn hq hfree]
        exact hwf
      | false =>
        rw [qualifiedSave_retry_eq s ⟨n, n, none, tid, ts, actor⟩ hn hq hfree]
        intro r hr
        rcases List.mem_append.mp hr with hr | hr
        · exact hwf r hr
        · rw [List.mem_singleton] at hr
          subst hr
          obtain ⟨k, hk2, hmq⟩ := mintedQualifier_wf n hwf
          refine ⟨fun h => absurd h (by simp [retrySlug]), fun qs hqs => ?_⟩
          have hqs' : mintedQualifier s n = qs := by
            simpa [retrySlug] using hqs
          subst hqs'
          exact ⟨rfl, k, hk2, hmq⟩

/-- C8 (amended): in any store built exclusively by the allocator from
empty, every record satisfies the structural invariant (absent qualifier
means `name = baseName`; present qualifier `qs` means
`name = baseName ++ "-" ++ qs` with `qs` the decimal rendering of an
integer ≥ 2); and every call persists either nothing or exactly one new
row whose `baseName` is the requested name — the retry never changes it.
(On stores holding anomalous foreign rows the `≥ 2` part can fail, which
is what the counterexample exhibits.) -/
theorem C8_invariant_amended :
    (∀ s, ReachableStore s → ∀ r ∈ s, WellFormedSlug r) ∧
    (∀ (s : Store) (n tid : String) (ts : Nat) (actor : String),
      (allocate s n tid ts actor).2 = s ∨
      ∃ r2, (allocate s n tid ts actor).2 = s ++ [r2] ∧ r2.baseName = n) := by
  constructor
  · intro s hs
    induction hs with
    | empty => intro r hr; simp at hr
    | step s n tid ts actor hs ih => exact allocate_preserves_wf s n tid ts actor ih
  · intro s n tid ts actor
    unfold allocate
    cases hn : hasName s n with
    | false =>
      rw [qualifiedSave_insert_eq s ⟨n, n, none, tid, ts, actor⟩ hn]
      exact Or.inr ⟨⟨n, n, none, tid, ts, actor⟩, rfl, rfl⟩
    | true =>
      cases hq : queryLatest s (fun x => x.baseName == n && x.thingID == tid) with
      | some rx =>
        rw [qualifiedSave_dup_q1_eq s ⟨n, n, none, tid, ts, actor⟩ rx hn hq]
        exact Or.inl rfl
      | none =>
        cases hfree : hasName s (n ++ "-" ++ mintedQualifier s n) with
        | true =>
          rw [qualifiedSave_conflict_eq s ⟨n, n, none, tid, ts, actor⟩ hn hq hfree]
          exact Or.inl rfl
        | false =>
          rw [qualifiedSave_retry_eq s ⟨n, n, none, tid, ts, actor⟩ hn hq hfree]
          exact Or.inr ⟨retrySlug s ⟨n, n, none, tid, ts, actor⟩, rfl, rfl⟩

theorem C8_invariant_amended_witness :
    WellFormedSlug ⟨"my-review", "my-review", none, "subjectA", 1, "actorX"⟩ :=
  C8_invariant_amended.1 (allocate [] "my-review" "subjectA" 1 "actorX").2
    (ReachableStore.step [] "my-review" "subjectA" 1 "actorX" ReachableStore.empty)
    ⟨"my-review", "my-review", none, "subjectA", 1, "actorX"⟩ (by decide)

/-- C8 (counterexample): on a store holding an anomalous row whose
`qualifierPart` is `"0"`, the allocator creates a record with qualifier
`"1"`, which coerces to 1 — not an integer ≥ 2 — so the invariant as
claimed does not hold for every record the allocator creates. -/
theorem C8_counterexample :
    (allocate [⟨"x", "x", some "0", "A", 1, "u"⟩] "x" "B" 2 "y").1 =
      .resolved ⟨"x-1", "x", some "1", "B", 2, "y"⟩ ∧
    jsNumber "1" = some ⟨1, 0⟩ ∧ (1 : ℤ) < 2 := by
  decide

end ThingSlug
